import Mathlib

/-!
# SmartHomeLLM — verification of the streaming assembler / validation / dispatch pipeline

Shallow embedding of the Python sources:

* `src/services/openai/schema.py` — `smart_home_command_schema` (embedded as the
  decision procedure `validJson`, the meaning of `jsonschema.validate` applied to
  that fixed schema);
* `src/utils/validation.py` — `is_valid_command_structure`,
  `get_validation_error_details`, `handle_invalid_response`;
* `src/services/openai/validation.py` — `OpenAIValidator.fallback`;
* `src/utils/response_parser.py` — `ResponseParser.process`;
* `src/services/openai/realtime.py` — `OpenAIRealtimeClient._handle_responses`
  (the streaming assembler) and `OpenAIRealtimeClient.validate_payload`;
* `src/services/mqtt/mqtt_handler.py` — `MQTTHandler.dispatch`.

JSON values are modelled by the inductive type `Json` (numbers as integers —
the repository's schema and payloads never use fractional numbers).  The Python
`json` library (`json.loads` / `json.dumps(…, separators=(",", ":"))`) is not
part of the repository; it is modelled by the executable parser `parseJson` and
the compact serializer `serialize` below, for which the round-trip theorem
`parseJson_serialize` is proved.
-/

namespace SmartHome

/-- JSON values (Python objects produced by `json.loads`).  Objects are
association lists in insertion order, mirroring Python `dict`s. -/
inductive Json where
  | null
  | bool (b : Bool)
  | num (n : Int)
  | str (s : String)
  | arr (elems : List Json)
  | obj (fields : List (String × Json))
deriving Repr

mutual

/-- Structural equality on JSON values (Python `==` on the parsed objects),
written by hand because `Json` is a nested inductive. -/
def beqJson : Json → Json → Bool
  | .null, .null => true
  | .bool a, .bool b => a == b
  | .num a, .num b => a == b
  | .str a, .str b => a == b
  | .arr xs, .arr ys => beqJsonList xs ys
  | .obj xs, .obj ys => beqJsonFields xs ys
  | _, _ => false

/-- Structural equality on JSON arrays. -/
def beqJsonList : List Json → List Json → Bool
  | [], [] => true
  | x :: xs, y :: ys => beqJson x y && beqJsonList xs ys
  | _, _ => false

/-- Structural equality on JSON object field lists. -/
def beqJsonFields : List (String × Json) → List (String × Json) → Bool
  | [], [] => true
  | (k, v) :: xs, (k', v') :: ys => k == k' && beqJson v v' && beqJsonFields xs ys
  | _, _ => false

end

mutual

theorem beqJson_iff : ∀ a b : Json, beqJson a b = true ↔ a = b
  | .null, b => by cases b <;> simp [beqJson]
  | .bool a, b => by cases b <;> simp [beqJson]
  | .num a, b => by cases b <;> simp [beqJson]
  | .str a, b => by cases b <;> simp [beqJson]
  | .arr xs, b => by
      cases b <;> simp [beqJson]
      exact beqJsonList_iff xs _
  | .obj xs, b => by
      cases b <;> simp [beqJson]
      exact beqJsonFields_iff xs _

theorem beqJsonList_iff : ∀ xs ys : List Json, beqJsonList xs ys = true ↔ xs = ys
  | [], ys => by cases ys <;> simp [beqJsonList]
  | x :: xs, ys => by
      cases ys with
      | nil => simp [beqJsonList]
      | cons y ys =>
          simp only [beqJsonList, Bool.and_eq_true, List.cons.injEq]
          rw [beqJson_iff, beqJsonList_iff]

theorem beqJsonFields_iff :
    ∀ xs ys : List (String × Json), beqJsonFields xs ys = true ↔ xs = ys
  | [], ys => by cases ys <;> simp [beqJsonFields]
  | (k, v) :: xs, ys => by
      cases ys with
      | nil => simp [beqJsonFields]
      | cons y ys =>
          obtain ⟨k', v'⟩ := y
          simp only [beqJsonFields, Bool.and_eq_true, List.cons.injEq, Prod.mk.injEq,
            beq_iff_eq]
          rw [beqJson_iff, beqJsonFields_iff]

end

instance : DecidableEq Json := fun a b =>
  decidable_of_iff (beqJson a b = true) (beqJson_iff a b)

/-- First-occurrence lookup in an object's field list — the meaning of
`d[k]` / `d.get(k)` on the Python `dict` `d` (whose keys are unique). -/
def lookupField : List (String × Json) → String → Option Json
  | [], _ => none
  | (k', v) :: rest, k => if k' = k then some v else lookupField rest k

/-- `"action" in d` etc. — key presence in an object. -/
def hasField (kvs : List (String × Json)) (k : String) : Bool :=
  (lookupField kvs k).isSome

/-- The `enum` of the schema's `action` property. -/
def actionEnum : List String :=
  ["turn_on", "turn_off", "set_brightness", "set_temperature", "lock", "unlock"]

/-- The `enum` of the schema's `device` property. -/
def deviceEnum : List String := ["lights", "thermostat", "door", "fan"]

/-- The `enum` of the schema's `target` colours. -/
def colorEnum : List String := ["red", "blue", "green"]

/-- The `target` subschema: either an enum string, or a 1–3 element array of
enum strings with `uniqueItems` (no two structurally equal elements). -/
def validTarget : Json → Bool
  | .str s => colorEnum.contains s
  | .arr xs =>
      xs.all (fun x => match x with | .str s => colorEnum.contains s | _ => false)
        && 1 ≤ xs.length && xs.length ≤ 3 && decide xs.Nodup
  | _ => false

/-- The non-null branch of the schema's `command` property: an object with
`action`, `device`, `target` required, each value constrained by its enum
(`properties` constrains a key only when present; `required` forces presence,
extra keys are unconstrained — `jsonschema` semantics). -/
def validCommandObj : Json → Bool
  | .obj kvs =>
      (match lookupField kvs "action" with
        | some (.str a) => actionEnum.contains a
        | some _ => false
        | none => false)
      && (match lookupField kvs "device" with
        | some (.str d) => deviceEnum.contains d
        | some _ => false
        | none => false)
      && (match lookupField kvs "target" with
        | some t => validTarget t
        | none => false)
  | _ => false

/-- `jsonschema.validate(instance, smart_home_command_schema)` as a decision
procedure: top-level object, `speak` a string, `command` either `null` or a
valid command object (the schema's `anyOf`).  Extra keys are unconstrained. -/
def validJson : Json → Bool
  | .obj kvs =>
      (match lookupField kvs "speak" with
        | some (.str _) => true
        | _ => false)
      && (match lookupField kvs "command" with
        | some .null => true
        | some c => validCommandObj c
        | none => false)
  | _ => false

/-! ## The JSON wire format

`json.dumps(…, separators=(",", ":"))` and `json.loads` are library functions
outside the repository; they are modelled by the compact serializer `serChars`
and the recursive-descent parser `parseVal` (fuel-indexed, fuel bounded by the
input length). -/

/-- The decimal digit characters, least significant digit of `Nat.digits`
first. -/
def digitChar : Nat → Char
  | 0 => '0' | 1 => '1' | 2 => '2' | 3 => '3' | 4 => '4'
  | 5 => '5' | 6 => '6' | 7 => '7' | 8 => '8' | _ => '9'

/-- The numeric value of a decimal digit character. -/
def charDigit (c : Char) : Nat := c.toNat - 48

/-- Decimal representation of a natural number, most significant digit first. -/
def natChars (n : Nat) : List Char :=
  if n = 0 then ['0'] else ((Nat.digits 10 n).map digitChar).reverse

/-- Decimal representation of an integer (`-` sign for negatives). -/
def numChars : Int → List Char
  | .ofNat n => natChars n
  | .negSucc m => '-' :: natChars (m + 1)

/-- String-body escaping: quote and backslash are escaped, all other
characters pass through unchanged. -/
def escChars : List Char → List Char
  | [] => []
  | c :: cs =>
      (if c = '"' then ['\\', '"'] else if c = '\\' then ['\\', '\\'] else [c])
        ++ escChars cs

/-- The characters of a literal keyword. -/
def litChars (s : String) : List Char := s.data

mutual

/-- Compact JSON serialization (`json.dumps` with separators `","`/`":"`). -/
def serChars : Json → List Char
  | .null => litChars "null"
  | .bool true => litChars "true"
  | .bool false => litChars "false"
  | .num n => numChars n
  | .str s => '"' :: (escChars s.data ++ ['"'])
  | .arr [] => ['[', ']']
  | .arr (x :: xs) => '[' :: (serChars x ++ serElemsTail xs ++ [']'])
  | .obj [] => ['{', '}']
  | .obj (kv :: kvs) => '{' :: (serField kv ++ serFieldsTail kvs ++ ['}'])

/-- The `,`-prefixed serializations of the remaining array elements. -/
def serElemsTail : List Json → List Char
  | [] => []
  | x :: xs => ',' :: (serChars x ++ serElemsTail xs)

/-- One `"key":value` field. -/
def serField : String × Json → List Char
  | (k, v) => '"' :: (escChars k.data ++ '"' :: ':' :: serChars v)

/-- The `,`-prefixed serializations of the remaining object fields. -/
def serFieldsTail : List (String × Json) → List Char
  | [] => []
  | kv :: kvs => ',' :: (serField kv ++ serFieldsTail kvs)

end

/-- `json.dumps(payload, separators=(",", ":"))`. -/
def serialize (j : Json) : String := String.mk (serChars j)

/-- Unescaping of a backslash escape in a string body. -/
def unescChar (c : Char) : Option Char :=
  if c = '"' then some '"'
  else if c = '\\' then some '\\'
  else if c = '/' then some '/'
  else if c = 'n' then some '\n'
  else if c = 't' then some '\t'
  else if c = 'r' then some '\r'
  else none

mutual

/-- Parse a string body after the opening quote, up to and including the
closing quote; returns the body and the remaining input. -/
def parseStrChars : List Char → Option (List Char × List Char)
  | [] => none
  | c :: cs =>
      if c = '"' then some ([], cs)
      else if c = '\\' then parseEscChars cs
      else
        match parseStrChars cs with
        | some (s, r) => some (c :: s, r)
        | none => none

/-- Parse the character after a backslash, then the rest of the string
body. -/
def parseEscChars : List Char → Option (List Char × List Char)
  | [] => none
  | e :: cs =>
      match unescChar e with
      | some u =>
          match parseStrChars cs with
          | some (s, r) => some (u :: s, r)
          | none => none
      | none => none

end

/-- Split off the longest leading run of decimal digit characters. -/
def takeDigits : List Char → List Char × List Char
  | [] => ([], [])
  | c :: cs =>
      if c.isDigit then
        let p := takeDigits cs
        (c :: p.1, p.2)
      else ([], c :: cs)

/-- Value of a most-significant-first list of digit characters. -/
def digitsValN (ds : List Char) : Nat :=
  Nat.ofDigits 10 ((ds.map charDigit).reverse)

mutual

/-- Recursive-descent JSON value parser.  `fuel` only bounds the nesting of
the recursion; `parseJson` supplies more fuel than any input can consume. -/
def parseVal : Nat → List Char → Option (Json × List Char)
  | 0, _ => none
  | _ + 1, [] => none
  | fuel + 1, c :: cs =>
      if c.isDigit then
        some (.num (digitsValN (takeDigits (c :: cs)).1), (takeDigits (c :: cs)).2)
      else if c = '-' then
        match takeDigits cs with
        | ([], _) => none
        | (ds, r) => some (.num (-(digitsValN ds : Int)), r)
      else if c = 'n' then
        match cs with
        | 'u' :: 'l' :: 'l' :: r => some (.null, r)
        | _ => none
      else if c = 't' then
        match cs with
        | 'r' :: 'u' :: 'e' :: r => some (.bool true, r)
        | _ => none
      else if c = 'f' then
        match cs with
        | 'a' :: 'l' :: 's' :: 'e' :: r => some (.bool false, r)
        | _ => none
      else if c = '"' then
        match parseStrChars cs with
        | some (s, r) => some (.str (String.mk s), r)
        | none => none
      else if c = '[' then
        match cs with
        | ']' :: r => some (.arr [], r)
        | _ =>
            match parseVal fuel cs with
            | some (v, r) =>
                match parseArrTail fuel r with
                | some (vs, r2) => some (.arr (v :: vs), r2)
                | none => none
            | none => none
      else if c = '{' then
        match cs with
        | '}' :: r => some (.obj [], r)
        | _ =>
            match parseField fuel cs with
            | some (kv, r) =>
                match parseObjTail fuel r with
                | some (kvs, r2) => some (.obj (kv :: kvs), r2)
                | none => none
            | none => none
      else none

/-- After an array element: `]` closes the array, `,` introduces the next
element. -/
def parseArrTail : Nat → List Char → Option (List Json × List Char)
  | 0, _ => none
  | fuel + 1, cs =>
      match cs with
      | ']' :: r => some ([], r)
      | ',' :: cs' =>
          match parseVal fuel cs' with
          | some (v, r) =>
              match parseArrTail fuel r with
              | some (vs, r2) => some (v :: vs, r2)
              | none => none
          | none => none
      | _ => none

/-- One `"key":value` object field. -/
def parseField : Nat → List Char → Option ((String × Json) × List Char)
  | 0, _ => none
  | fuel + 1, cs =>
      match cs with
      | '"' :: cs' =>
          match parseStrChars cs' with
          | some (k, r) =>
              match r with
              | ':' :: r2 =>
                  match parseVal fuel r2 with
                  | some (v, r3) => some ((String.mk k, v), r3)
                  | none => none
              | _ => none
          | none => none
      | _ => none

/-- After an object field: `}` closes the object, `,` introduces the next
field. -/
def parseObjTail : Nat → List Char → Option (List (String × Json) × List Char)
  | 0, _ => none
  | fuel + 1, cs =>
      match cs with
      | '}' :: r => some ([], r)
      | ',' :: cs' =>
          match parseField fuel cs' with
          | some (kv, r) =>
              match parseObjTail fuel r with
              | some (kvs, r2) => some (kv :: kvs, r2)
              | none => none
          | none => none
      | _ => none

end

/-- `json.loads`: the whole input must be consumed by one JSON value.
Returns `none` where `json.loads` raises `JSONDecodeError`. -/
def parseJson (s : String) : Option Json :=
  match parseVal (s.data.length + 1) s.data with
  | some (j, []) => some j
  | _ => none

/-! ## `src/utils/validation.py` -/

/-- The two validation failure kinds of the spec's taxonomy, as distinguished
by `get_validation_error_details` (`json.JSONDecodeError` vs
`jsonschema.ValidationError`). -/
inductive VError where
  | malformedJSON
  | schemaMismatch
deriving DecidableEq, Repr

/-- `is_valid_command_structure`: parse, validate against
`smart_home_command_schema`, catch both exception kinds and return
`(False, None)` for them. -/
def is_valid_command_structure (response_text : String) : Bool × Option Json :=
  match parseJson response_text with
  | none => (false, none)
  | some parsed => if validJson parsed then (true, some parsed) else (false, none)

/-- `get_validation_error_details`: `none` when valid, otherwise which of the
two exceptions was caught. -/
def get_validation_error_details (response_text : String) : Option VError :=
  match parseJson response_text with
  | none => some .malformedJSON
  | some parsed => if validJson parsed then none else some .schemaMismatch

/-! ## `src/services/openai/validation.py` — `OpenAIValidator.fallback` -/

/-- `OpenAIValidator.fallback`.  The secondary model call is external I/O; its
outcome is the argument `modelResult`: `none` models a transport/model error
(any exception from `openai.ChatCompletion.create`, caught by the
`except Exception` handler), `some fixed` models the returned message content.
The repaired text is re-parsed with `json.loads` only — it is not re-validated
against the command schema.  `transcript` and `raw_response` are embedded in
the prompt of the external call and do not influence the local control flow. -/
def fallback (modelResult : Option String) (transcript raw_response : String) :
    Bool × Option Json :=
  match modelResult with
  | none => (false, none)
  | some fixed =>
      match parseJson fixed with
      | none => (false, none)
      | some fixed_parsed => (true, some fixed_parsed)

/-- Observable side effects of the pipeline: the fallback-repair call, the
dispatcher call, the MQTT payload publish, and the three printed reports. -/
inductive Act where
  | fallbackCall (transcript raw : String)
  | dispatchCall (cmd : Json)
  | publishPayload (payload : Json)
  | reportEmptyTurn
  | reportParseFailure
  | reportInvalid
deriving DecidableEq, Repr

/-- Python truthiness of the `transcript` parameter (`if transcript:`):
`None` and the empty string are falsy. -/
def truthy : Option String → Bool
  | none => false
  | some t => t != ""

/-- `handle_invalid_response`: report the error details, then — only when a
truthy transcript is available — invoke `OpenAIValidator.fallback` exactly
once; return the repaired object on success and `None` otherwise. -/
def handle_invalid_response (modelResult : Option String) (response_text : String)
    (transcript : Option String) : Option Json × List Act :=
  if truthy transcript then
    let t := transcript.getD ""
    match fallback modelResult t response_text with
    | (true, fixed_json) => (fixed_json, [.reportInvalid, .fallbackCall t response_text])
    | (false, _) => (none, [.reportInvalid, .fallbackCall t response_text])
  else (none, [.reportInvalid])

/-! ## `src/utils/response_parser.py` — `ResponseParser.process` -/

/-- Python `json.loads` applied to an in-memory value — the
`json.loads(fixed)` call on the object returned by the repair path.  Only a
string parses; any other argument raises `TypeError` (modelled as `none`). -/
def json_loads_py : Json → Option Json
  | .str s => parseJson s
  | _ => none

/-- `parsed.get(k)`: `none` models the `AttributeError` raised when `parsed`
is not a dict; an absent key yields Python `None` (JSON `null`). -/
def pyGet : Json → String → Option Json
  | .obj kvs, k => some ((lookupField kvs k).getD .null)
  | _, _ => none

/-- How one `ResponseParser.process` call ends: normal return, the explicit
drop (`return` after a failed repair), or an uncaught exception. -/
inductive ProcOutcome where
  | completed
  | dropped
  | raised
deriving DecidableEq, Repr

/-- The tail of `ResponseParser.process` after `parsed` is settled: read
`speak` and `command` off `parsed` and, if a dispatcher is configured, call
`dispatcher.dispatch(command)` — unconditionally on the value of `command`. -/
def dispatchPhase (parsed : Json) (acts : List Act) (hasDispatcher : Bool) :
    ProcOutcome × List Act :=
  match pyGet parsed "command" with
  | none => (.raised, acts)
  | some command =>
      if hasDispatcher then (.completed, acts ++ [.dispatchCall command])
      else (.completed, acts)

/-- `ResponseParser.process(raw_content, transcript)`.  `modelResult` is the
outcome of the external secondary model call, should the repair path reach
it; `hasDispatcher` is whether `self.dispatcher` is set. -/
def process (raw_content transcript : String) (modelResult : Option String)
    (hasDispatcher : Bool) : ProcOutcome × List Act :=
  let v := is_valid_command_structure raw_content
  if v.1 then
    dispatchPhase (v.2.getD .null) [] hasDispatcher
  else
    let hr := handle_invalid_response modelResult raw_content (some transcript)
    match hr.1 with
    | none => (.dropped, hr.2)
    | some fixed =>
        match json_loads_py fixed with
        | none => (.raised, hr.2)
        | some parsed => dispatchPhase parsed hr.2 hasDispatcher

/-! ## `src/services/openai/realtime.py` — the streaming assembler -/

/-- The inbound protocol events `_handle_responses` distinguishes, by their
`type` tag; the content fragments carry `msg.get("content", "")`. -/
inductive RTEvent where
  | contentPartDelta (content : String)
  | contentPartDone (content : String)
  | responseDone
  | other
deriving DecidableEq, Repr

/-- One iteration of the `async for` loop of
`OpenAIRealtimeClient._handle_responses`: the state is `self._json_buffer`,
the result records the successor buffer and the side effects of the
iteration.  On `response.done` the buffer is parsed (no schema validation, no
fallback — this branch publishes the payload directly) and then reset. -/
def handleEvent (buf : String) (e : RTEvent) : String × List Act :=
  match e with
  | .contentPartDelta c => (buf ++ c, [])
  | .contentPartDone c => (buf ++ c, [])
  | .responseDone =>
      if buf = "" then ("", [.reportEmptyTurn])
      else
        match parseJson buf with
        | none => ("", [.reportParseFailure])
        | some payload => ("", [.publishPayload payload])
  | .other => (buf, [])

/-- Processing a whole event sequence in arrival order. -/
def runEvents (buf : String) : List RTEvent → String × List Act
  | [] => (buf, [])
  | e :: es =>
      let r := handleEvent buf e
      let r' := runEvents r.1 es
      (r'.1, r.2 ++ r'.2)

/-- `OpenAIRealtimeClient.validate_payload`: dict with `speak` (a string) and
`command` (None, or a dict containing the keys `action`, `device`, `target`);
no enum or value checks. -/
def validate_payload (payload : Json) : Bool :=
  match payload with
  | .obj kvs =>
      if hasField kvs "speak" && hasField kvs "command" then
        match lookupField kvs "speak" with
        | some (.str _) =>
            (match lookupField kvs "command" with
              | some .null => true
              | some (.obj ckvs) =>
                  hasField ckvs "action" && hasField ckvs "device"
                    && hasField ckvs "target"
              | _ => false)
        | _ => false
      else false
  | _ => false

/-! ## `src/services/mqtt/mqtt_handler.py` — `MQTTHandler.dispatch` -/

/-- The shapes of `command["target"]` that `dispatch` supports: a string or a
list of strings. -/
inductive TargetVal where
  | s (t : String)
  | l (ts : List String)
deriving DecidableEq, Repr

/-- The `command` dict as `MQTTHandler.dispatch` reads it: `command.get(k)`
for the three keys (`none` models an absent key, i.e. Python `None`). -/
structure CmdDict where
  action : Option String
  device : Option String
  target : Option TargetVal
deriving DecidableEq, Repr

/-- Python `str(x)` as the f-string `f"{device}/{color}"` applies it to a
possibly-`None` device. -/
def pyStr : Option String → String
  | some s => s
  | none => "None"

/-- `action == "turn_on"` where `action` is `command.get("action")`. -/
def eqTurnOn : Option String → Bool
  | some a => a == "turn_on"
  | none => false

/-- The `for color in targets` publish loop: one `(topic, payload)` message
per target element. -/
def dispatchLoop (device : String) (actionIsOn : Bool) :
    List String → List (String × String)
  | [] => []
  | color :: rest =>
      (device ++ "/" ++ color, if actionIsOn then "ON" else "OFF")
        :: dispatchLoop device actionIsOn rest

/-- `MQTTHandler.dispatch(command)`: a string target is wrapped into a
one-element list, then one message is published per element.  `none` models
the `TypeError` raised when `target` is absent (iterating `None`). -/
def MQTTdispatch (command : CmdDict) : Option (List (String × String)) :=
  match command.target with
  | none => none
  | some (.s t) =>
      some (dispatchLoop (pyStr command.device) (eqTurnOn command.action) [t])
  | some (.l ts) =>
      some (dispatchLoop (pyStr command.device) (eqTurnOn command.action) ts)

/-! ## Round trip: parsing a compact serialization recovers the value

`jsize` bounds the parser fuel a serialized value needs; it is dominated by
the serialization length, so `parseJson` (which supplies `length + 1` fuel)
always has enough. -/

mutual

/-- Fuel requirement of a value. -/
def jsize : Json → Nat
  | .null => 1
  | .bool _ => 1
  | .num _ => 1
  | .str _ => 1
  | .arr xs => 1 + lsizeJ xs
  | .obj kvs => 1 + fsizeJ kvs

/-- Fuel requirement of an array tail. -/
def lsizeJ : List Json → Nat
  | [] => 0
  | x :: xs => 1 + jsize x + lsizeJ xs

/-- Fuel requirement of an object tail. -/
def fsizeJ : List (String × Json) → Nat
  | [] => 0
  | kv :: kvs => 1 + jsize kv.2 + fsizeJ kvs

end

/-- No leading decimal digit — the shape of every legal continuation after a
serialized value (empty, or starting with a structural character). -/
def noDigitHead (cs : List Char) : Prop :=
  ∀ c, cs.head? = some c → c.isDigit = false

theorem noDigitHead_nil : noDigitHead [] := by
  intro c hc
  simp at hc

theorem noDigitHead_cons {c : Char} (h : c.isDigit = false) (cs : List Char) :
    noDigitHead (c :: cs) := by
  intro c' hc'
  simp only [List.head?_cons, Option.some.injEq] at hc'
  exact hc' ▸ h

theorem jsize_pos (j : Json) : 1 ≤ jsize j := by
  cases j <;> simp [jsize]

theorem charDigit_digitChar {d : Nat} (h : d < 10) : charDigit (digitChar d) = d := by
  interval_cases d <;> decide

theorem isDigit_digitChar {d : Nat} (h : d < 10) : (digitChar d).isDigit = true := by
  interval_cases d <;> decide

theorem natChars_ne_nil (n : Nat) : natChars n ≠ [] := by
  unfold natChars
  split
  · simp
  · rw [Ne, List.reverse_eq_nil_iff, List.map_eq_nil_iff]
    exact Nat.digits_ne_nil_iff_ne_zero.mpr (by assumption)

theorem natChars_digits {n : Nat} : ∀ c ∈ natChars n, c.isDigit = true := by
  intro c hc
  unfold natChars at hc
  split at hc
  · simp at hc
    exact hc ▸ (by decide)
  · rw [List.mem_reverse, List.mem_map] at hc
    obtain ⟨d, hd, rfl⟩ := hc
    exact isDigit_digitChar (Nat.digits_lt_base (by norm_num) hd)

theorem digitsValN_natChars (n : Nat) : digitsValN (natChars n) = n := by
  unfold natChars digitsValN
  split
  · subst ‹n = 0›
    decide
  · rw [List.map_reverse, List.reverse_reverse, List.map_map]
    have hmap : (Nat.digits 10 n).map (charDigit ∘ digitChar) = Nat.digits 10 n := by
      conv_rhs => rw [← List.map_id (Nat.digits 10 n)]
      refine List.map_congr_left ?_
      intro d hd
      exact charDigit_digitChar (Nat.digits_lt_base (by norm_num) hd)
    rw [hmap, Nat.ofDigits_digits]

theorem takeDigits_append {ds rest : List Char} (hds : ∀ c ∈ ds, c.isDigit = true)
    (hrest : noDigitHead rest) : takeDigits (ds ++ rest) = (ds, rest) := by
  induction ds with
  | nil =>
      rw [List.nil_append]
      cases rest with
      | nil => rfl
      | cons c t =>
          have hc : c.isDigit = false := hrest c rfl
          simp [takeDigits, hc]
  | cons d ds ih =>
      have hd : d.isDigit = true := hds d (List.mem_cons_self d ds)
      have ih' := ih (fun c hc => hds c (List.mem_cons_of_mem d hc))
      simp [takeDigits, hd, ih']

theorem serChars_cons (j : Json) :
    ∃ c cs, serChars j = c :: cs ∧ c ≠ ']' ∧ c ≠ '\x7d' := by
  cases j with
  | null => exact ⟨'n', _, rfl, by decide, by decide⟩
  | bool b => cases b
              · exact ⟨'f', _, rfl, by decide, by decide⟩
              · exact ⟨'t', _, rfl, by decide, by decide⟩
  | num n =>
      cases n with
      | ofNat m =>
          obtain ⟨c, cs, h⟩ := List.exists_cons_of_ne_nil (natChars_ne_nil m)
          have hc : c.isDigit = true := natChars_digits c (h ▸ List.mem_cons_self c cs)
          refine ⟨c, cs, h, ?_, ?_⟩
          · intro hne; rw [hne] at hc; exact absurd hc (by decide)
          · intro hne; rw [hne] at hc; exact absurd hc (by decide)
      | negSucc m => exact ⟨'-', _, rfl, by decide, by decide⟩
  | str s => exact ⟨'"', _, rfl, by decide, by decide⟩
  | arr xs => cases xs
              · exact ⟨'[', _, rfl, by decide, by decide⟩
              · exact ⟨'[', _, rfl, by decide, by decide⟩
  | obj kvs => cases kvs
               · exact ⟨'\x7b', _, rfl, by decide, by decide⟩
               · exact ⟨'\x7b', _, rfl, by decide, by decide⟩

theorem parseStrChars_escChars (s : List Char) (rest : List Char) :
    parseStrChars (escChars s ++ '"' :: rest) = some (s, rest) := by
  induction s with
  | nil => rfl
  | cons c cs ih =>
      by_cases h1 : c = '"'
      · subst h1
        show parseStrChars ('\\' :: '"' :: (escChars cs ++ '"' :: rest)) = _
        rw [show parseStrChars ('\\' :: '"' :: (escChars cs ++ '"' :: rest)) =
            (match parseStrChars (escChars cs ++ '"' :: rest) with
             | some (s, r) => some ('"' :: s, r)
             | none => none) from rfl, ih]
      · by_cases h2 : c = '\\'
        · subst h2
          show parseStrChars ('\\' :: '\\' :: (escChars cs ++ '"' :: rest)) = _
          rw [show parseStrChars ('\\' :: '\\' :: (escChars cs ++ '"' :: rest)) =
              (match parseStrChars (escChars cs ++ '"' :: rest) with
               | some (s, r) => some ('\\' :: s, r)
               | none => none) from rfl, ih]
        · show parseStrChars
              ((if c = '"' then ['\\', '"'] else if c = '\\' then ['\\', '\\'] else [c])
                ++ escChars cs ++ '"' :: rest) = _
          rw [if_neg h1, if_neg h2, List.singleton_append]
          show (if c = '"' then some ([], escChars cs ++ '"' :: rest)
                else if c = '\\' then parseEscChars (escChars cs ++ '"' :: rest)
                else
                  match parseStrChars (escChars cs ++ '"' :: rest) with
                  | some (s, r) => some (c :: s, r)
                  | none => none) = _
          rw [if_neg h1, if_neg h2, ih]

mutual

theorem jsize_le_length : ∀ j : Json, jsize j ≤ (serChars j).length
  | .null => by decide
  | .bool b => by cases b <;> decide
  | .num (.ofNat m) => by
      have h : 0 < (natChars m).length := List.length_pos.mpr (natChars_ne_nil m)
      simpa [jsize, serChars, numChars] using h
  | .num (.negSucc m) => by
      simp only [jsize, serChars, numChars, List.length_cons]
      omega
  | .str s => by
      simp only [jsize, serChars, List.length_cons]
      omega
  | .arr [] => by decide
  | .arr (x :: xs) => by
      have h1 := jsize_le_length x
      have h2 := lsize_le_length xs
      simp only [jsize, lsizeJ, serChars, List.length_cons, List.length_append,
        List.length_singleton]
      omega
  | .obj [] => by decide
  | .obj (kv :: kvs) => by
      have h1 := field_le_length kv
      have h2 := fsize_le_length kvs
      simp only [jsize, fsizeJ, serChars, List.length_cons, List.length_append,
        List.length_singleton]
      omega

theorem lsize_le_length : ∀ xs : List Json, lsizeJ xs ≤ (serElemsTail xs).length
  | [] => by simp [lsizeJ, serElemsTail]
  | x :: xs => by
      have h1 := jsize_le_length x
      have h2 := lsize_le_length xs
      simp only [lsizeJ, serElemsTail, List.length_cons, List.length_append]
      omega

theorem fsize_le_length :
    ∀ kvs : List (String × Json), fsizeJ kvs ≤ (serFieldsTail kvs).length
  | [] => by simp [fsizeJ, serFieldsTail]
  | kv :: kvs => by
      have h1 := field_le_length kv
      have h2 := fsize_le_length kvs
      simp only [fsizeJ, serFieldsTail, List.length_cons, List.length_append]
      omega

theorem field_le_length : ∀ kv : String × Json, 1 + jsize kv.2 ≤ (serField kv).length
  | (k, v) => by
      have h1 := jsize_le_length v
      simp only [serField, List.length_cons, List.length_append]
      omega

end

theorem parseVal_succ_digit {c : Char} (fuel : Nat) (cs : List Char)
    (h : c.isDigit = true) :
    parseVal (fuel + 1) (c :: cs) =
      some (.num (digitsValN (takeDigits (c :: cs)).1), (takeDigits (c :: cs)).2) := by
  simp only [parseVal]
  rw [if_pos h]

theorem parseVal_succ_neg (fuel : Nat) (cs : List Char) :
    parseVal (fuel + 1) ('-' :: cs) =
      (match takeDigits cs with
       | ([], _) => none
       | (ds, r) => some (.num (-(digitsValN ds : Int)), r)) := rfl

theorem parseVal_succ_quote (fuel : Nat) (cs : List Char) :
    parseVal (fuel + 1) ('"' :: cs) =
      (match parseStrChars cs with
       | some (s, r) => some (.str (String.mk s), r)
       | none => none) := rfl

theorem parseVal_succ_lbracket (fuel : Nat) (cs : List Char) :
    parseVal (fuel + 1) ('[' :: cs) =
      (match cs with
       | ']' :: r => some (.arr [], r)
       | _ =>
          match parseVal fuel cs with
          | some (v, r) =>
              match parseArrTail fuel r with
              | some (vs, r2) => some (.arr (v :: vs), r2)
              | none => none
          | none => none) := rfl

theorem parseVal_succ_lbrace (fuel : Nat) (cs : List Char) :
    parseVal (fuel + 1) ('\x7b' :: cs) =
      (match cs with
       | '\x7d' :: r => some (.obj [], r)
       | _ =>
          match parseField fuel cs with
          | some (kv, r) =>
              match parseObjTail fuel r with
              | some (kvs, r2) => some (.obj (kv :: kvs), r2)
              | none => none
          | none => none) := rfl

theorem parseArrTail_succ_comma (fuel : Nat) (cs : List Char) :
    parseArrTail (fuel + 1) (',' :: cs) =
      (match parseVal fuel cs with
       | some (v, r) =>
          match parseArrTail fuel r with
          | some (vs, r2) => some (v :: vs, r2)
          | none => none
       | none => none) := rfl

theorem parseField_succ_quote (fuel : Nat) (cs : List Char) :
    parseField (fuel + 1) ('"' :: cs) =
      (match parseStrChars cs with
       | some (k, r) =>
          match r with
          | ':' :: r2 =>
              match parseVal fuel r2 with
              | some (v, r3) => some ((String.mk k, v), r3)
              | none => none
          | _ => none
       | none => none) := rfl

theorem parseObjTail_succ_comma (fuel : Nat) (cs : List Char) :
    parseObjTail (fuel + 1) (',' :: cs) =
      (match parseField fuel cs with
       | some (kv, r) =>
          match parseObjTail fuel r with
          | some (kvs, r2) => some (kv :: kvs, r2)
          | none => none
       | none => none) := rfl

theorem noDigitHead_serElemsTail (xs : List Json) (rest : List Char) :
    noDigitHead (serElemsTail xs ++ ']' :: rest) := by
  cases xs with
  | nil => exact noDigitHead_cons (by decide) rest
  | cons x xs => exact noDigitHead_cons (by decide) _

theorem noDigitHead_serFieldsTail (kvs : List (String × Json)) (rest : List Char) :
    noDigitHead (serFieldsTail kvs ++ '\x7d' :: rest) := by
  cases kvs with
  | nil => exact noDigitHead_cons (by decide) rest
  | cons kv kvs => exact noDigitHead_cons (by decide) _

theorem neg_natCast_succ (m : Nat) : -((m + 1 : Nat) : Int) = Int.negSucc m := by
  rw [Int.negSucc_eq]
  push_cast
  ring

theorem parse_ser_all : ∀ fuel : Nat,
    (∀ j rest, jsize j ≤ fuel → noDigitHead rest →
        parseVal fuel (serChars j ++ rest) = some (j, rest)) ∧
      (∀ xs rest, lsizeJ xs < fuel →
        parseArrTail fuel (serElemsTail xs ++ ']' :: rest) = some (xs, rest)) ∧
      (∀ kvs rest, fsizeJ kvs < fuel →
        parseObjTail fuel (serFieldsTail kvs ++ '\x7d' :: rest) = some (kvs, rest)) ∧
      (∀ (kv : String × Json) rest, jsize kv.2 < fuel → noDigitHead rest →
        parseField fuel (serField kv ++ rest) = some (kv, rest)) := by
  intro fuel
  induction fuel with
  | zero =>
      refine ⟨fun j rest hj _ => absurd hj (by have := jsize_pos j; omega),
        fun xs rest h => absurd h (by omega),
        fun kvs rest h => absurd h (by omega),
        fun kv rest h _ => absurd h (by omega)⟩
  | succ fuel ih =>
      obtain ⟨ihV, ihA, ihO, ihF⟩ := ih
      refine ⟨?_, ?_, ?_, ?_⟩
      · intro j rest hj hrest
        cases j with
        | null => rfl
        | bool b => cases b <;> rfl
        | num n =>
            cases n with
            | ofNat m =>
                obtain ⟨c, cs0, hx⟩ := List.exists_cons_of_ne_nil (natChars_ne_nil m)
                have hcd : c.isDigit = true :=
                  natChars_digits c (hx ▸ List.mem_cons_self c cs0)
                show parseVal (fuel + 1) (natChars m ++ rest) = _
                rw [hx, List.cons_append, parseVal_succ_digit fuel _ hcd,
                  ← List.cons_append, ← hx,
                  takeDigits_append natChars_digits hrest, digitsValN_natChars]
                rfl
            | negSucc m =>
                show parseVal (fuel + 1) (('-' :: natChars (m + 1)) ++ rest) = _
                rw [List.cons_append, parseVal_succ_neg,
                  takeDigits_append natChars_digits hrest]
                obtain ⟨c, cs0, hx⟩ := List.exists_cons_of_ne_nil (natChars_ne_nil (m + 1))
                rw [hx]
                show some (Json.num (-(digitsValN (c :: cs0) : Int)), rest) = _
                rw [← hx, digitsValN_natChars, neg_natCast_succ]
        | str s =>
            show parseVal (fuel + 1) (('"' :: (escChars s.data ++ ['"'])) ++ rest) = _
            rw [List.cons_append, List.append_assoc, List.singleton_append,
              parseVal_succ_quote, parseStrChars_escChars]
        | arr xs =>
            cases xs with
            | nil => rfl
            | cons x xs =>
                have hx1 : jsize x ≤ fuel := by
                  simp only [jsize, lsizeJ] at hj; omega
                have hxs : lsizeJ xs < fuel := by
                  have := jsize_pos x
                  simp only [jsize, lsizeJ] at hj; omega
                show parseVal (fuel + 1)
                    (('[' :: (serChars x ++ serElemsTail xs ++ [']'])) ++ rest) = _
                rw [List.cons_append, List.append_assoc, List.append_assoc,
                  List.singleton_append, parseVal_succ_lbracket]
                obtain ⟨c, cs0, hc, hc1, _⟩ := serChars_cons x
                split
                · rename_i r heq
                  rw [hc, List.cons_append] at heq
                  exact absurd (List.head_eq_of_cons_eq heq) hc1
                · rw [ihV x _ hx1 (noDigitHead_serElemsTail xs rest)]
                  show (match parseArrTail fuel (serElemsTail xs ++ ']' :: rest) with
                        | some (vs, r2) => some (Json.arr (x :: vs), r2)
                        | none => none) = _
                  rw [ihA xs rest hxs]
        | obj kvs =>
            cases kvs with
            | nil => rfl
            | cons kv kvs =>
                have hv1 : jsize kv.2 < fuel := by
                  simp only [jsize, fsizeJ] at hj; omega
                have hkvs : fsizeJ kvs < fuel := by
                  have := jsize_pos kv.2
                  simp only [jsize, fsizeJ] at hj; omega
                show parseVal (fuel + 1)
                    (('\x7b' :: (serField kv ++ serFieldsTail kvs ++ ['\x7d'])) ++ rest) = _
                rw [List.cons_append, List.append_assoc, List.append_assoc,
                  List.singleton_append, parseVal_succ_lbrace]
                obtain ⟨k, v⟩ := kv
                split
                · rename_i r heq
                  rw [show serField (k, v) = '"' :: (escChars k.data ++ '"' :: ':' :: serChars v)
                      from rfl, List.cons_append] at heq
                  exact absurd (List.head_eq_of_cons_eq heq) (by decide)
                · rw [ihF (k, v) _ hv1 (noDigitHead_serFieldsTail kvs rest)]
                  show (match parseObjTail fuel (serFieldsTail kvs ++ '\x7d' :: rest) with
                        | some (kvs2, r2) => some (Json.obj ((k, v) :: kvs2), r2)
                        | none => none) = _
                  rw [ihO kvs rest hkvs]
      · intro xs rest h
        cases xs with
        | nil => rfl
        | cons x xs =>
            have hx1 : jsize x ≤ fuel := by
              simp only [lsizeJ] at h; omega
            have hxs : lsizeJ xs < fuel := by
              have := jsize_pos x
              simp only [lsizeJ] at h; omega
            show parseArrTail (fuel + 1)
                ((',' :: (serChars x ++ serElemsTail xs)) ++ ']' :: rest) = _
            rw [List.cons_append, List.append_assoc, parseArrTail_succ_comma,
              ihV x _ hx1 (noDigitHead_serElemsTail xs rest)]
            show (match parseArrTail fuel (serElemsTail xs ++ ']' :: rest) with
                  | some (vs, r2) => some (x :: vs, r2)
                  | none => none) = _
            rw [ihA xs rest hxs]
      · intro kvs rest h
        cases kvs with
        | nil => rfl
        | cons kv kvs =>
            have hv1 : jsize kv.2 < fuel := by
              simp only [fsizeJ] at h; omega
            have hkvs : fsizeJ kvs < fuel := by
              have := jsize_pos kv.2
              simp only [fsizeJ] at h; omega
            show parseObjTail (fuel + 1)
                ((',' :: (serField kv ++ serFieldsTail kvs)) ++ '\x7d' :: rest) = _
            rw [List.cons_append, List.append_assoc, parseObjTail_succ_comma,
              ihF kv _ hv1 (noDigitHead_serFieldsTail kvs rest)]
            show (match parseObjTail fuel (serFieldsTail kvs ++ '\x7d' :: rest) with
                  | some (kvs2, r2) => some (kv :: kvs2, r2)
                  | none => none) = _
            rw [ihO kvs rest hkvs]
      · intro kv rest hv hrest
        obtain ⟨k, v⟩ := kv
        show parseField (fuel + 1)
            (('"' :: (escChars k.data ++ '"' :: ':' :: serChars v)) ++ rest) = _
        rw [List.cons_append, List.append_assoc, List.cons_append, List.cons_append,
          parseField_succ_quote, parseStrChars_escChars]
        show (match parseVal fuel (serChars v ++ rest) with
              | some (v2, r3) => some ((String.mk k.data, v2), r3)
              | none => none) = _
        have hv2 : jsize v ≤ fuel := by
          have hv3 : jsize v < fuel + 1 := hv
          omega
        rw [ihV v rest hv2 hrest]

theorem parseVal_serChars {j : Json} {rest : List Char} {fuel : Nat}
    (hf : jsize j ≤ fuel) (hrest : noDigitHead rest) :
    parseVal fuel (serChars j ++ rest) = some (j, rest) :=
  (parse_ser_all fuel).1 j rest hf hrest

/-- Round trip: the parser inverts the compact serializer on every JSON
value. -/
theorem parseJson_serialize (j : Json) : parseJson (serialize j) = some j := by
  have h : parseVal ((serChars j).length + 1) (serChars j ++ []) = some (j, []) :=
    parseVal_serChars (by have := jsize_le_length j; omega) noDigitHead_nil
  rw [List.append_nil] at h
  unfold parseJson
  show (match parseVal ((serChars j).length + 1) (serChars j) with
        | some (j, []) => some j
        | _ => none) = some j
  rw [h]

/-! ## Auxiliary facts used by the claim theorems -/

/-- The publish loop is a per-element map: exactly one message per target. -/
theorem dispatchLoop_eq_map (device : String) (actionIsOn : Bool) (ts : List String) :
    dispatchLoop device actionIsOn ts =
      ts.map (fun color =>
        (device ++ "/" ++ color, if actionIsOn then "ON" else "OFF")) := by
  induction ts with
  | nil => rfl
  | cons t ts ih => simp [dispatchLoop, ih]

/-- After `response.done` the buffer component of the assembler state is always
empty, in every arm (empty turn, parse failure, success). -/
theorem handleEvent_responseDone_buffer (buf : String) :
    (handleEvent buf RTEvent.responseDone).1 = "" := by
  simp only [handleEvent]
  split
  · rfl
  · split <;> rfl

/-! ## Claims -/

/-- C4: the accumulation buffer is reset to the empty string at every turn
boundary — after `response.done` is processed (successful parse, failed
parse, or empty buffer alike) the buffer is empty; hence after any event
sequence ending in `response.done` the buffer is empty, and the first
fragment of the next turn starts accumulation from the empty string (no
cross-turn leakage). -/
theorem C4_buffer_reset_at_turn_boundary (buf : String) (es : List RTEvent)
    (frag : String) :
    (handleEvent buf RTEvent.responseDone).1 = "" ∧
      (runEvents buf (es ++ [RTEvent.responseDone])).1 = "" ∧
      (handleEvent (handleEvent buf RTEvent.responseDone).1
          (RTEvent.contentPartDelta frag)).1 = frag := by
  refine ⟨handleEvent_responseDone_buffer buf, ?_, ?_⟩
  · induction es generalizing buf with
    | nil => simpa [runEvents] using handleEvent_responseDone_buffer buf
    | cons e es ih => simp [runEvents, ih]
  · rw [handleEvent_responseDone_buffer buf]
    show (("" : String) ++ frag, ([] : List Act)).1 = frag
    obtain ⟨d⟩ := frag
    rfl

/-- C8: a `response.done` event arriving on an empty buffer produces only the
empty-turn report: no payload publish, no dispatch, and the assembler is back
at the empty-buffer (idle) state. -/
theorem C8_empty_turn_no_dispatch :
    handleEvent "" RTEvent.responseDone = ("", [Act.reportEmptyTurn]) ∧
      (∀ p, Act.publishPayload p ∉ (handleEvent "" RTEvent.responseDone).2) ∧
      (∀ c, Act.dispatchCall c ∉ (handleEvent "" RTEvent.responseDone).2) := by
  refine ⟨rfl, ?_, ?_⟩ <;> intro x <;> simp [handleEvent]

/-- C5: every Turn Payload value conforming to the command schema validates
back, after serialization, to a structurally equal object
(serialize/validate round trip). -/
theorem C5_serialize_validate_roundtrip (P : Json) (h : validJson P = true) :
    is_valid_command_structure (serialize P) = (true, some P) := by
  simp [is_valid_command_structure, parseJson_serialize, h]

theorem C5_serialize_validate_roundtrip_witness :
    validJson (Json.obj [("speak", Json.str "hi"), ("command", Json.null)]) = true ∧
      is_valid_command_structure
          (serialize (Json.obj [("speak", Json.str "hi"), ("command", Json.null)]))
        = (true, some (Json.obj [("speak", Json.str "hi"), ("command", Json.null)])) :=
  ⟨by decide, C5_serialize_validate_roundtrip _ (by decide)⟩

/-- C6: on input that is not well-formed JSON the validator returns the
malformed-JSON failure — `is_valid_command_structure` yields `(False, None)`
and `get_validation_error_details` classifies it as a JSON decode error; both
are total functions (the exceptions are caught, never re-raised). -/
theorem C6_malformed_json_failure (s : String) (h : parseJson s = none) :
    is_valid_command_structure s = (false, none) ∧
      get_validation_error_details s = some VError.malformedJSON := by
  simp [is_valid_command_structure, get_validation_error_details, h]

theorem C6_malformed_json_failure_witness :
    parseJson "\x7binvalid" = none ∧
      (is_valid_command_structure "\x7binvalid" = (false, none) ∧
        get_validation_error_details "\x7binvalid" = some VError.malformedJSON) :=
  ⟨by decide, C6_malformed_json_failure _ (by decide)⟩

/-- C7: a `target` array containing a duplicate element fails schema
validation (the schema's `uniqueItems`), and conversely a payload that
validates with an array target has a 1–3 element duplicate-free array. -/
theorem C7_duplicate_target_rejected (kvs ckvs : List (String × Json))
    (xs : List Json) :
    (lookupField kvs "command" = some (Json.obj ckvs) →
        lookupField ckvs "target" = some (Json.arr xs) →
        ¬ xs.Nodup → validJson (Json.obj kvs) = false) ∧
      (validJson (Json.obj kvs) = true →
        lookupField kvs "command" = some (Json.obj ckvs) →
        lookupField ckvs "target" = some (Json.arr xs) →
        xs.Nodup ∧ 1 ≤ xs.length ∧ xs.length ≤ 3) := by
  constructor
  · intro hcmd htgt hnd
    have hv : validTarget (Json.arr xs) = false := by
      simp [validTarget, hnd]
    have hc : validCommandObj (Json.obj ckvs) = false := by
      simp only [validCommandObj]
      rw [htgt]
      simp [hv]
    simp only [validJson]
    rw [hcmd]
    simp [hc]
  · intro hval hcmd htgt
    simp only [validJson] at hval
    rw [hcmd] at hval
    simp only [Bool.and_eq_true] at hval
    have hc : validCommandObj (Json.obj ckvs) = true := hval.2
    simp only [validCommandObj] at hc
    rw [htgt] at hc
    simp only [Bool.and_eq_true] at hc
    have hv : validTarget (Json.arr xs) = true := hc.2
    simp only [validTarget, Bool.and_eq_true, decide_eq_true_eq] at hv
    exact ⟨hv.2, hv.1.1.2, hv.1.2⟩

theorem C7_duplicate_target_rejected_witness :
    validTarget (Json.str "red") = true ∧
      validJson (Json.obj [("speak", Json.str "ok"),
        ("command", Json.obj [("action", Json.str "turn_on"),
          ("device", Json.str "lights"),
          ("target", Json.arr [Json.str "red", Json.str "red"])])]) = false :=
  ⟨by decide,
    (C7_duplicate_target_rejected
        [("speak", Json.str "ok"),
          ("command", Json.obj [("action", Json.str "turn_on"),
            ("device", Json.str "lights"),
            ("target", Json.arr [Json.str "red", Json.str "red"])])]
        [("action", Json.str "turn_on"), ("device", Json.str "lights"),
          ("target", Json.arr [Json.str "red", Json.str "red"])]
        [Json.str "red", Json.str "red"]).1
      (by decide) (by decide) (by decide)⟩

/-- C9: `MQTTHandler.dispatch` treats a string target as the one-element
list, publishes exactly one message per target element to topic
`device/color`, and the payload is `"ON"` exactly for action `"turn_on"`
and `"OFF"` for every other action (including the remaining enum values). -/
theorem C9_dispatch_publishes_per_target (command : CmdDict) :
    (∀ t, command.target = some (TargetVal.s t) →
        MQTTdispatch command =
          MQTTdispatch { command with target := some (TargetVal.l [t]) }) ∧
      (∀ ts, command.target = some (TargetVal.l ts) →
        MQTTdispatch command =
          some (ts.map (fun color =>
            (pyStr command.device ++ "/" ++ color,
              if eqTurnOn command.action then "ON" else "OFF")))) ∧
      eqTurnOn (some "turn_on") = true ∧
      (∀ a ∈ ["turn_off", "set_brightness", "set_temperature", "lock", "unlock"],
        eqTurnOn (some a) = false) := by
  refine ⟨?_, ?_, by decide, ?_⟩
  · intro t h
    simp [MQTTdispatch, h]
  · intro ts h
    simp [MQTTdispatch, h, dispatchLoop_eq_map]
  · intro a ha
    fin_cases ha <;> decide

theorem C9_dispatch_publishes_per_target_witness :
    MQTTdispatch ⟨some "turn_off", some "lights", some (TargetVal.l ["red", "blue"])⟩
        = some [("lights/red", "OFF"), ("lights/blue", "OFF")] ∧
      eqTurnOn (some "set_brightness") = false := by
  constructor
  · rw [(C9_dispatch_publishes_per_target
        ⟨some "turn_off", some "lights", some (TargetVal.l ["red", "blue"])⟩).2.1
        ["red", "blue"] rfl]
    decide
  · exact (C9_dispatch_publishes_per_target
        ⟨some "set_brightness", some "lights", none⟩).2.2.2
      "set_brightness" (by decide)

/-- C10: `validate_payload` accepts every dict with a string `speak` and a
`command` that is null or any dict merely containing the keys `action`,
`device`, `target` — no enum checks — so a payload with an out-of-enum
action passes `validate_payload` while failing schema validation. -/
theorem C10_validate_payload_no_enum_checks (kvs ckvs : List (String × Json))
    (s : String) :
    (lookupField kvs "speak" = some (Json.str s) →
        lookupField kvs "command" = some Json.null →
        validate_payload (Json.obj kvs) = true) ∧
      (lookupField kvs "speak" = some (Json.str s) →
        lookupField kvs "command" = some (Json.obj ckvs) →
        hasField ckvs "action" = true → hasField ckvs "device" = true →
        hasField ckvs "target" = true →
        validate_payload (Json.obj kvs) = true) ∧
      (validate_payload (Json.obj [("speak", Json.str "ok"),
          ("command", Json.obj [("action", Json.str "explode"),
            ("device", Json.str "lights"), ("target", Json.str "red")])]) = true ∧
        validJson (Json.obj [("speak", Json.str "ok"),
          ("command", Json.obj [("action", Json.str "explode"),
            ("device", Json.str "lights"), ("target", Json.str "red")])]) = false) := by
  refine ⟨?_, ?_, by decide, by decide⟩
  · intro hs hc
    simp [validate_payload, hasField, hs, hc]
  · intro hs hc ha hd ht
    simp [validate_payload, hasField, hs, hc]
    simp only [hasField] at ha hd ht
    simp [ha, hd, ht]

theorem C10_validate_payload_no_enum_checks_witness :
    validate_payload (Json.obj [("speak", Json.str "hi"), ("command", Json.null)])
      = true :=
  (C10_validate_payload_no_enum_checks
      [("speak", Json.str "hi"), ("command", Json.null)] [] "hi").1
    (by decide) (by decide)

/-- C1 (code bug): on a buffer that validates to a Turn Payload with
`command: null`, `ResponseParser.process` indeed never invokes the fallback
repairer — but, contrary to the claim and the spec, it DOES invoke the
configured dispatcher, with `command = None`: the dispatch call is
unconditional on the value of `command`. -/
theorem C1_null_command_is_dispatched :
    process "\x7b\"speak\":\"hi\",\"command\":null\x7d" "turn on the lights" none true
        = (ProcOutcome.completed, [Act.dispatchCall Json.null]) ∧
      (∀ t r, Act.fallbackCall t r ∉
        (process "\x7b\"speak\":\"hi\",\"command\":null\x7d" "turn on the lights"
          none true).2) := by
  have h : process "\x7b\"speak\":\"hi\",\"command\":null\x7d" "turn on the lights"
      none true = (ProcOutcome.completed, [Act.dispatchCall Json.null]) := by decide
  refine ⟨h, ?_⟩
  intro t r
  rw [h]
  simp

/-- C2 (code bug): the streaming assembler `_handle_responses` never invokes
the fallback repairer on any event — on `response.done` with an invalid
buffer it only reports the parse failure and resets the buffer, instead of
calling `FallbackRepairer.repair(lastTranscript, buffer)` as specified. -/
theorem C2_assembler_never_invokes_fallback :
    (∀ buf e t r, Act.fallbackCall t r ∉ (handleEvent buf e).2) ∧
      handleEvent "\x7binvalid" RTEvent.responseDone
        = ("", [Act.reportParseFailure]) := by
  constructor
  · intro buf e t r
    cases e with
    | contentPartDelta c => simp [handleEvent]
    | contentPartDone c => simp [handleEvent]
    | responseDone =>
        simp only [handleEvent]
        split
        · simp
        · split <;> simp
    | other => simp [handleEvent]
  · decide

/-- C3 counterexample: a repaired text that is valid JSON but fails schema
validation (here `"{}"`) is reported by `OpenAIValidator.fallback` as a
SUCCESS — the repaired text is not re-validated against the schema, contrary
to the claim that such a repair yields `RepairFailure`. -/
theorem C3_schema_invalid_repair_reported_success :
    parseJson "\x7b\x7d" = some (Json.obj []) ∧
      validJson (Json.obj []) = false ∧
      fallback (some "\x7b\x7d") "turn on the lights" "\x7bbad"
        = (true, some (Json.obj [])) := by
  refine ⟨by decide, by decide, by decide⟩

/-- C3 (amended): the fallback repairer re-parses the repaired text as JSON
but does not re-validate it against the command schema — a model-call error
or unparsable repaired text yields failure, any parsable repaired text is
reported as success — and no second repair is attempted (at most one
fallback call per processed response). -/
theorem C3_fallback_reparses_without_revalidation (modelResult : Option String)
    (t raw s : String) (j : Json) :
    fallback none t raw = (false, none) ∧
      (parseJson s = none → fallback (some s) t raw = (false, none)) ∧
      (parseJson s = some j → fallback (some s) t raw = (true, some j)) ∧
      (process raw t modelResult true).2.countP
          (fun a => match a with | Act.fallbackCall _ _ => true | _ => false) ≤ 1 := by
  refine ⟨rfl, ?_, ?_, ?_⟩
  · intro h
    simp [fallback, h]
  · intro h
    simp [fallback, h]
  · have key : ∀ (parsed : Json) (acts : List Act),
        (dispatchPhase parsed acts true).2.countP
            (fun a => match a with | Act.fallbackCall _ _ => true | _ => false)
          ≤ acts.countP
              (fun a => match a with | Act.fallbackCall _ _ => true | _ => false) := by
      intro parsed acts
      simp only [dispatchPhase]
      split
      · exact Nat.le_refl _
      · rw [if_true, List.countP_append]
        rename_i command heq
        have h0 : List.countP
            (fun a => match a with | Act.fallbackCall _ _ => true | _ => false)
            [Act.dispatchCall command] = 0 := rfl
        omega
    cases hval : (is_valid_command_structure raw).1 with
    | true =>
        simp only [process, hval, if_true]
        exact Nat.le_trans (key _ _) (by decide)
    | false =>
        simp only [process, hval, Bool.false_eq_true, if_false]
        have hh : (handle_invalid_response modelResult raw (some t)).2.countP
            (fun a => match a with | Act.fallbackCall _ _ => true | _ => false) ≤ 1 := by
          simp only [handle_invalid_response]
          split
          · split
            · exact Nat.le.refl
            · exact Nat.le.refl
          · exact Nat.le_of_lt Nat.zero_lt_one
        split
        · exact hh
        · split
          · exact hh
          · exact Nat.le_trans (key _ _) hh

theorem C3_fallback_reparses_without_revalidation_witness :
    (parseJson "notjson" = none ∧
        fallback (some "notjson") "a transcript" "raw" = (false, none)) ∧
      (parseJson "null" = some Json.null ∧
        fallback (some "null") "a transcript" "raw" = (true, some Json.null)) :=
  ⟨⟨by decide,
      (C3_fallback_reparses_without_revalidation (some "notjson") "a transcript"
          "raw" "notjson" Json.null).2.1 (by decide)⟩,
    ⟨by decide,
      (C3_fallback_reparses_without_revalidation (some "null") "a transcript"
          "raw" "null" Json.null).2.2.1 (by decide)⟩⟩

end SmartHome
